import Mathlib

/-!
Verification of the brand-context sentiment classification engine of the
off-site-sentiment repository (src/sentiment-analyzer.js).

The JavaScript source is shallowly embedded: text is a `List Char`, the
regular expressions used by the source (which are alternations of escaped
literals, boundary-prefixed literal words, and the sentence splitter
`[^.!?]+[.!?]+`) are embedded by their scanning semantics, and JavaScript
objects used as string-keyed maps are embedded as insertion-ordered
association lists.
-/

/-- Terminal sentence punctuation, the character class `[.!?]`. -/
def isTermPunct (c : Char) : Bool := c = '.' || c = '!' || c = '?'

/-- Scanning loop of `text.match(/[^.!?]+[.!?]+/g) || []`: `body` is the
run of non-terminal characters and `punct` the following run of terminal
punctuation accumulated for the sentence currently being matched.  A
terminal character while `body` is empty cannot start a match and is
skipped; a non-terminal character arriving while `punct` is nonempty ends
the current match and starts the next; at end of input an unterminated
`body` is dropped. -/
def sentSplitAux : List Char → List Char → List Char → List (List Char)
  | [], body, punct => if punct.isEmpty then [] else [body ++ punct]
  | c :: rest, body, punct =>
    if isTermPunct c then
      if body.isEmpty then sentSplitAux rest [] []
      else sentSplitAux rest body (punct ++ [c])
    else
      if punct.isEmpty then sentSplitAux rest (body ++ [c]) []
      else (body ++ punct) :: sentSplitAux rest [c] []

/-- Embedding of `text.match(/[^.!?]+[.!?]+/g) || []`: maximal runs of
non-terminal characters followed by at least one terminal punctuation
character, in text order; trailing text with no terminal punctuation is
dropped. -/
def sentSplit (s : List Char) : List (List Char) :=
  sentSplitAux s [] []

/-- ASCII upper-case letter, the character class `[A-Z]`. -/
def isUpperAscii (c : Char) : Bool := 'A' ≤ c && c ≤ 'Z'

/-- ASCII lower-casing of one character, modelling the effect of
`toLowerCase` and of the regex `i` flag on the ASCII inputs this program
works with. -/
def lowerChar (c : Char) : Char :=
  if isUpperAscii c then Char.ofNat (c.toNat + 32) else c

/-- Case-insensitive "is `w` a prefix of `t`" for literal patterns. -/
def ciStartsWith : List Char → List Char → Bool
  | [], _ => true
  | _ :: _, [] => false
  | a :: as, b :: bs => lowerChar a == lowerChar b && ciStartsWith as bs

/-- Case-insensitive "does `s` end with `suf`". -/
def ciEndsWith (suf s : List Char) : Bool :=
  ciStartsWith suf.reverse s.reverse

/-- Whitespace as removed by `String.prototype.trim` (ASCII part). -/
def isWS (c : Char) : Bool := c = ' ' || c = '\t' || c = '\n' || c = '\r'

/-- Embedding of `String.prototype.trim`. -/
def trimWS (l : List Char) : List Char :=
  ((l.dropWhile isWS).reverse.dropWhile isWS).reverse

/-- The apostrophe character, written by code point to keep the file free
of bare quote characters. -/
def apos : Char := Char.ofNat 39

/-- Embedding of `brandName.replace(/([A-Z])/g, ' $1').trim()`: a space is
inserted before every ASCII upper-case letter, then the result is trimmed. -/
def camelSplit (name : List Char) : List Char :=
  trimWS ((name.map (fun c => if isUpperAscii c then [' ', c] else [c])).flatten)

/-- Embedding of `brandName.replace(/^WK/, 'WK ')` (case-sensitive). -/
def wkSpaceVariant (name : List Char) : List Char :=
  match name with
  | 'W' :: 'K' :: rest => 'W' :: 'K' :: ' ' :: rest
  | _ => name

/-- Embedding of `brandName.replace(/USA?$/i, '')`: a trailing "USA", or
otherwise a trailing "US", is removed case-insensitively. -/
def stripUsSuffix (name : List Char) : List Char :=
  if ciEndsWith ['u', 's', 'a'] name then name.take (name.length - 3)
  else if ciEndsWith ['u', 's'] name then name.take (name.length - 2)
  else name

/-- Embedding of `brandName.replace(/^WK/i, '').trim()`. -/
def dropWkCi (name : List Char) : List Char :=
  match name with
  | a :: b :: rest =>
    if lowerChar a == 'w' && lowerChar b == 'k' then trimWS rest else trimWS name
  | _ => trimWS name

/-- The seven surface-form variants built by `analyzeBrandContext` from the
canonical brand name, in source order. -/
def brandVariations (brandName : List Char) : List (List Char) :=
  [ brandName,
    camelSplit brandName,
    wkSpaceVariant brandName,
    stripUsSuffix brandName,
    brandName ++ [apos, 's'],
    dropWkCi brandName,
    dropWkCi brandName ++ [apos, 's'] ]

/-- One `exec` step of the combined brand regex (escaped variants joined
with alternation, flags `gi`) started at index `i`: scan positions left to
right; at the first position where some variant is a case-insensitive
prefix of the rest of the string, the first such variant in pattern order
matches, and the match ends `variant.length` characters later.  Returns the
end index of the match, or `none` when no match exists at or after `i`. -/
def scanMatchAux (vars : List (List Char)) : List Char → Nat → Option Nat
  | t, i =>
    match vars.find? (fun v => ciStartsWith v t) with
    | some v => some (i + v.length)
    | none =>
      match t with
      | [] => none
      | _ :: rest => scanMatchAux vars rest (i + 1)

/-- The same `exec` step, started from the regex state `lastIndex = li`:
no match is possible when `li` exceeds the string length. -/
def scanMatch (vars : List (List Char)) (s : List Char) (li : Nat) : Option Nat :=
  if li ≤ s.length then scanMatchAux vars (s.drop li) li else none

/-- A fresh (state-free) `test` of the combined brand regex against `s`. -/
def regexTestFresh (vars : List (List Char)) (s : List Char) : Bool :=
  (scanMatch vars s 0).isSome

/-- Embedding of `sentences.filter(s => brandRegex.test(s))` where
`brandRegex` carries the `g` flag: each `test` starts searching at the
regex's persistent `lastIndex`, which is set to the match end on success
and reset to `0` on failure. -/
def filterStateful (vars : List (List Char)) : List (List Char) → Nat → List (List Char)
  | [], _ => []
  | s :: rest, li =>
    match scanMatch vars s li with
    | some e => s :: filterStateful vars rest e
    | none => filterStateful vars rest 0

/-- Sentences of `text` kept by the brand filter, as the source computes
them (stateful regex, initial `lastIndex` of `0`). -/
def brandSentencesOf (text brandName : List Char) : List (List Char) :=
  filterStateful (brandVariations brandName) (sentSplit text) 0

/-- Sentence filtering as the specification describes it: a sentence is
kept if and only if it matches the brand alternation, each test fresh. -/
def specBrandSentences (text brandName : List Char) : List (List Char) :=
  (sentSplit text).filter (fun s => regexTestFresh (brandVariations brandName) s)

/-- Embedding of `Array.prototype.join(' ')`. -/
def joinSp : List (List Char) → List Char
  | [] => []
  | [x] => x
  | x :: xs => x ++ ' ' :: joinSp xs

/-- The lower-cased context window `brandSentences.join(' ').toLowerCase()`. -/
def brandContextOf (text brandName : List Char) : List Char :=
  (joinSp (brandSentencesOf text brandName)).map lowerChar

/-- Word characters for the regex `\b` boundary (`[A-Za-z0-9_]`). -/
def isWordChar (c : Char) : Bool :=
  ('a' ≤ c && c ≤ 'z') || ('A' ≤ c && c ≤ 'Z') || ('0' ≤ c && c ≤ '9') || c = '_'

/-- Whether a `\b` boundary holds between the previous character (if any)
and the start of `t`: exactly one side is a word character. -/
def atBoundary (prev : Option Char) (t : List Char) : Bool :=
  let l := match prev with | none => false | some c => isWordChar c
  let r := match t with | [] => false | c :: _ => isWordChar c
  l != r

/-- Scanning loop for `lowerCtx.match(new RegExp('\\b' + word, 'gi'))`:
repeated non-overlapping matches; a match requires a word boundary at its
start and the word as a case-insensitive prefix, and scanning resumes
after the matched span (`skip` counts the remaining characters of the
span just matched). -/
def countOccAux (w : List Char) : List Char → Option Char → Nat → Nat
  | [], _, _ => 0
  | c :: rest, prev, skip =>
    match skip with
    | k + 1 => countOccAux w rest (some c) k
    | 0 =>
      if atBoundary prev (c :: rest) && ciStartsWith w (c :: rest) then
        1 + countOccAux w rest (some c) (w.length - 1)
      else countOccAux w rest (some c) 0

/-- Number of matches of `\b<word>` (case-insensitive, global) in `ctx`. -/
def countOcc (w : List Char) (ctx : List Char) : Nat :=
  countOccAux w ctx none 0

/-- The healthcare-specific positive indicator list, in source order. -/
def positiveIndicators : List String :=
  ["approved", "breakthrough", "effective", "innovative", "leading", "first",
   "superior", "successful", "advance", "pioneer", "develop", "announce",
   "achieve", "demonstrate", "show", "proven", "award", "excellence",
   "partner", "collaboration", "invest", "expand", "growth", "milestone",
   "benefit", "improve", "help", "treat", "cure", "relief", "solution"]

/-- The healthcare-specific negative indicator list, in source order. -/
def negativeIndicators : List String :=
  ["recall", "lawsuit", "sued", "litigation", "penalty", "fine", "violation",
   "danger", "dangerous", "fatal", "death", "harm", "injury", "adverse",
   "fail", "failed", "reject", "denied", "controversy", "scandal",
   "mislead", "fraud", "illegal", "banned", "prohibit", "restrict",
   "shortage", "unavailable", "limited", "concern", "worried", "afraid",
   "expensive", "costly", "unaffordable", "price", "complaint", "criticism"]

/-- The declared neutral medical term list, in source order.  The source
defines this list but never reads it. -/
def neutralMedical : List String :=
  ["weight loss", "lose weight", "obesity", "overweight", "diabetes",
   "side effect", "adverse", "patient", "treatment", "therapy",
   "disease", "condition", "symptom", "dose", "dosage", "injection"]

/-- Embedding of the `forEach` counting loop: for each indicator word, if
it has at least one match in the context, its match count is added to the
running occurrence count and the word is pushed onto the unique-word list
unless already present. -/
def countStep (ctx : List Char) (acc : Nat × List String) (w : String) :
    Nat × List String :=
  let m := countOcc w.toList ctx
  if m > 0 then
    (acc.1 + m, if acc.2.contains w then acc.2 else acc.2 ++ [w])
  else acc

/-- The occurrence count and unique-word list over a whole indicator list. -/
def countStage (ctx : List Char) (words : List String) : Nat × List String :=
  words.foldl (countStep ctx) (0, [])

/-- The sentiment score `positiveCount - (negativeCount * 2)`. -/
def scoreOf (p n : Nat) : Int := (p : Int) - (n : Int) * 2

/-- The classification if/else-if chain of `analyzeBrandContext`, in source
order: positive, else negative, else neutral. -/
def classifyCounts (p n : Nat) : String :=
  if scoreOf p n ≥ 3 ∨ (p ≥ 3 ∧ n = 0) then "positive"
  else if scoreOf p n < 0 ∨ n ≥ 1 then "negative"
  else "neutral"

/-- The object returned by `analyzeBrandContext`.  JavaScript objects of
the two return sites have different shapes, so every field present in only
one of them is an `Option`: the early (no brand sentence) return carries
`indicators` and none of the count/word-list fields, the main return
carries the count/word-list fields and no `indicators`. -/
structure BrandSentimentResult where
  score : Int
  classification : String
  positiveCount : Option Nat
  negativeCount : Option Nat
  positive : Option (List String)
  negative : Option (List String)
  brandSentences : Option Nat
  indicators : Option (List String)
deriving DecidableEq

/-- Embedding of `analyzeBrandContext(text, brandName)`. -/
def analyzeBrandContext (text brandName : List Char) : BrandSentimentResult :=
  let brandSentences := brandSentencesOf text brandName
  if brandSentences.isEmpty then
    { score := 0, classification := "neutral",
      positiveCount := none, negativeCount := none,
      positive := none, negative := none,
      brandSentences := none, indicators := some [] }
  else
    let brandContext := brandContextOf text brandName
    let pos := countStage brandContext positiveIndicators
    let neg := countStage brandContext negativeIndicators
    { score := scoreOf pos.1 neg.1,
      classification := classifyCounts pos.1 neg.1,
      positiveCount := some pos.1, negativeCount := some neg.1,
      positive := some pos.2, negative := some neg.2,
      brandSentences := some brandSentences.length,
      indicators := none }

/-! ## Helper lemmas about the classifier stage -/

theorem classifyCounts_eq_positive_iff (p n : Nat) :
    classifyCounts p n = "positive" ↔ (3 ≤ scoreOf p n ∨ (3 ≤ p ∧ n = 0)) := by
  unfold classifyCounts
  split_ifs with h1 h2
  · exact iff_of_true rfl h1
  · exact iff_of_false (by decide) h1
  · exact iff_of_false (by decide) h1

theorem classifyCounts_eq_negative_iff (p n : Nat) :
    classifyCounts p n = "negative" ↔
      (¬(3 ≤ scoreOf p n ∨ (3 ≤ p ∧ n = 0)) ∧ (scoreOf p n < 0 ∨ 1 ≤ n)) := by
  unfold classifyCounts
  split_ifs with h1 h2
  · exact iff_of_false (by decide) (fun hc => hc.1 h1)
  · exact iff_of_true rfl ⟨h1, h2⟩
  · exact iff_of_false (by decide) (fun hc => h2 hc.2)

theorem classifyCounts_eq_neutral_iff (p n : Nat) :
    classifyCounts p n = "neutral" ↔
      (¬(3 ≤ scoreOf p n ∨ (3 ≤ p ∧ n = 0)) ∧ ¬(scoreOf p n < 0 ∨ 1 ≤ n)) := by
  unfold classifyCounts
  split_ifs with h1 h2
  · exact iff_of_false (by decide) (fun hc => hc.1 h1)
  · exact iff_of_false (by decide) (fun hc => hc.2 h2)
  · exact iff_of_true rfl ⟨h1, h2⟩

theorem classifyCounts_positive_three_le (p n : Nat)
    (h : classifyCounts p n = "positive") : 3 ≤ p := by
  rcases (classifyCounts_eq_positive_iff p n).mp h with h' | h'
  · unfold scoreOf at h'; omega
  · exact h'.1

theorem classifyCounts_negative_one_le (p n : Nat)
    (h : classifyCounts p n = "negative") : 1 ≤ n := by
  rcases (classifyCounts_eq_negative_iff p n).mp h with ⟨hnp, h' | h'⟩
  · by_contra hn
    exact hnp (Or.inl (by unfold scoreOf at *; omega))
  · exact h'

/-- C1: for all non-negative occurrence counts `p` and `n` the classifier
computes `score = p - 2 * n` and classifies by the fixed priority order:
positive when `score ≥ 3` or (`p ≥ 3` and `n = 0`), otherwise negative when
`score < 0` or `n ≥ 1`, otherwise neutral; in particular `p = 5, n = 1`
yields score `3` and classification positive even though `n ≥ 1`, because
the positive rule is evaluated strictly before the negative rule. -/
theorem claim_C1_classifier_priority (p n : Nat) :
    scoreOf p n = (p : Int) - 2 * (n : Int) ∧
    (classifyCounts p n = "positive" ↔ (3 ≤ scoreOf p n ∨ (3 ≤ p ∧ n = 0))) ∧
    (classifyCounts p n = "negative" ↔
      (¬(3 ≤ scoreOf p n ∨ (3 ≤ p ∧ n = 0)) ∧ (scoreOf p n < 0 ∨ 1 ≤ n))) ∧
    (classifyCounts p n = "neutral" ↔
      (¬(3 ≤ scoreOf p n ∨ (3 ≤ p ∧ n = 0)) ∧ ¬(scoreOf p n < 0 ∨ 1 ≤ n))) ∧
    scoreOf 5 1 = 3 ∧ classifyCounts 5 1 = "positive" ∧ 1 ≤ (1 : Nat) :=
  ⟨by unfold scoreOf; ring,
   classifyCounts_eq_positive_iff p n,
   classifyCounts_eq_negative_iff p n,
   classifyCounts_eq_neutral_iff p n,
   by decide, by decide, le_refl 1⟩

/-! ## C10: classification invariants of the full analyzer -/

/-- C10: whenever at least one brand-relevant sentence is found, a result
classified positive has a positive occurrence count of at least 3, and a
result classified negative has a negative occurrence count of at least 1. -/
theorem claim_C10_classification_invariant (text brandName : List Char)
    (h : 1 ≤ (brandSentencesOf text brandName).length) :
    ((analyzeBrandContext text brandName).classification = "positive" →
      ∃ p, (analyzeBrandContext text brandName).positiveCount = some p ∧ 3 ≤ p) ∧
    ((analyzeBrandContext text brandName).classification = "negative" →
      ∃ n, (analyzeBrandContext text brandName).negativeCount = some n ∧ 1 ≤ n) := by
  have hne : ¬(brandSentencesOf text brandName).isEmpty = true := by
    cases hbs : brandSentencesOf text brandName with
    | nil => rw [hbs] at h; simp at h
    | cons a l => simp
  unfold analyzeBrandContext
  simp only [hne, if_false, Bool.false_eq_true]
  constructor
  · intro hc
    exact ⟨_, rfl, classifyCounts_positive_three_le _ _ hc⟩
  · intro hc
    exact ⟨_, rfl, classifyCounts_negative_one_le _ _ hc⟩

/-- Witness for C10 at the concrete page text "ab is approved." and brand
name "ab", which has one brand-relevant sentence. -/
theorem claim_C10_witness :
    1 ≤ (brandSentencesOf "ab is approved.".toList "ab".toList).length ∧
    (((analyzeBrandContext "ab is approved.".toList "ab".toList).classification =
        "positive" →
      ∃ p, (analyzeBrandContext "ab is approved.".toList "ab".toList).positiveCount =
        some p ∧ 3 ≤ p) ∧
    ((analyzeBrandContext "ab is approved.".toList "ab".toList).classification =
        "negative" →
      ∃ n, (analyzeBrandContext "ab is approved.".toList "ab".toList).negativeCount =
        some n ∧ 1 ≤ n)) :=
  ⟨by decide, claim_C10_classification_invariant _ _ (by decide)⟩

/-! ## C2: the empty context window base case -/

theorem scanMatchAux_isSome_of_suffix (vars : List (List Char)) :
    ∀ tl t : List Char, ∀ i j : Nat, t <:+ tl →
      (scanMatchAux vars t i).isSome = true → (scanMatchAux vars tl j).isSome = true := by
  intro tl
  induction tl with
  | nil =>
    intro t i j hsuf hsome
    have ht : t = [] := List.eq_nil_of_suffix_nil hsuf
    subst ht
    rw [scanMatchAux] at hsome ⊢
    cases hf : vars.find? (fun v => ciStartsWith v ([] : List Char)) with
    | none => rw [hf] at hsome; simp at hsome
    | some v => rfl
  | cons c rest ih =>
    intro t i j hsuf hsome
    rw [scanMatchAux]
    cases hf : vars.find? (fun v => ciStartsWith v (c :: rest)) with
    | some v => rfl
    | none =>
      show (scanMatchAux vars rest (j + 1)).isSome = true
      rcases List.suffix_cons_iff.mp hsuf with heq | hsuf'
      · subst heq
        rw [scanMatchAux, hf] at hsome
        have hsome' : (scanMatchAux vars rest (i + 1)).isSome = true := hsome
        exact ih rest (i + 1) (j + 1) List.suffix_rfl hsome'
      · exact ih t i (j + 1) hsuf' hsome

theorem scanMatch_eq_none_of_fresh_false (vars : List (List Char)) (s : List Char)
    (h : regexTestFresh vars s = false) (li : Nat) : scanMatch vars s li = none := by
  unfold scanMatch
  split
  · next hli =>
    cases hs : scanMatchAux vars (s.drop li) li with
    | none => rfl
    | some e =>
      exfalso
      have hsome : (scanMatchAux vars (s.drop li) li).isSome = true := by
        rw [hs]; rfl
      have := scanMatchAux_isSome_of_suffix vars s (s.drop li) li 0
        (List.drop_suffix li s) hsome
      unfold regexTestFresh scanMatch at h
      simp only [Nat.zero_le, if_pos, List.drop_zero] at h
      rw [this] at h
      cases h
  · rfl

theorem filterStateful_eq_nil (vars : List (List Char)) (sl : List (List Char))
    (h : ∀ t ∈ sl, regexTestFresh vars t = false) :
    ∀ li, filterStateful vars sl li = [] := by
  induction sl with
  | nil => intro li; rfl
  | cons s rest ih =>
    intro li
    have hs : scanMatch vars s li = none :=
      scanMatch_eq_none_of_fresh_false vars s (h s (List.mem_cons_self s rest)) li
    rw [filterStateful, hs]
    exact ih (fun t ht => h t (List.mem_cons_of_mem s ht)) 0

/-- C2 (amended): for every text in which no sentence matches the brand
variant alternation, `analyzeBrandContext` returns without error the early
base-case object: score 0, classification neutral, an empty `indicators`
list, and no occurrence-count or word-list fields at all (the base-case
return object carries no `positiveCount`, `negativeCount`, `positive` or
`negative` properties). -/
theorem claim_C2_no_match_base_case (text brandName : List Char)
    (h : ∀ s ∈ sentSplit text, regexTestFresh (brandVariations brandName) s = false) :
    analyzeBrandContext text brandName =
      { score := 0, classification := "neutral",
        positiveCount := none, negativeCount := none,
        positive := none, negative := none,
        brandSentences := none, indicators := some [] } := by
  have hb : brandSentencesOf text brandName = [] :=
    filterStateful_eq_nil (brandVariations brandName) (sentSplit text) h 0
  unfold analyzeBrandContext
  rw [hb]
  rfl

/-- Counterexample to C2 as stated: on the empty text the analyzer does
reach the base case with score 0 and classification neutral, but the
returned object has no `positiveCount`, `negativeCount`, `positive` or
`negative` fields (it has an `indicators` field instead), so the claimed
`positiveCount = 0`, `negativeCount = 0` and empty word lists are absent
rather than zero-valued. -/
theorem claim_C2_counterexample :
    (analyzeBrandContext "".toList "x".toList).score = 0 ∧
    (analyzeBrandContext "".toList "x".toList).classification = "neutral" ∧
    (analyzeBrandContext "".toList "x".toList).positiveCount = none ∧
    (analyzeBrandContext "".toList "x".toList).positiveCount ≠ some 0 ∧
    (analyzeBrandContext "".toList "x".toList).negativeCount ≠ some 0 ∧
    (analyzeBrandContext "".toList "x".toList).positive ≠ some [] ∧
    (analyzeBrandContext "".toList "x".toList).negative ≠ some [] ∧
    (analyzeBrandContext "".toList "x".toList).indicators = some [] := by
  decide

/-- Witness for the amended C2 at the empty text. -/
theorem claim_C2_witness :
    (∀ s ∈ sentSplit "".toList,
      regexTestFresh (brandVariations "x".toList) s = false) ∧
    analyzeBrandContext "".toList "x".toList =
      { score := 0, classification := "neutral",
        positiveCount := none, negativeCount := none,
        positive := none, negative := none,
        brandSentences := none, indicators := some [] } :=
  ⟨by decide, claim_C2_no_match_base_case _ _ (by decide)⟩

/-! ## C3: the stateful sentence filter diverges from keep-iff-match -/

/-- C3: at the text "xab. ab b." with brand name "ab", the sentence
splitter produces the two fully-delimited sentences "xab." and " ab b.";
the second sentence matches the brand alternation when tested fresh, yet
the source's filter keeps only the first: the brand regex carries the `g`
flag, so the `lastIndex` left by the match inside "xab." makes the test of
" ab b." start past its brand mention.  The context window therefore is
not the join of exactly the sentences that match. -/
theorem claim_C3_stateful_filter_divergence :
    sentSplit "xab. ab b.".toList = ["xab.".toList, " ab b.".toList] ∧
    regexTestFresh (brandVariations "ab".toList) " ab b.".toList = true ∧
    brandSentencesOf "xab. ab b.".toList "ab".toList = ["xab.".toList] ∧
    specBrandSentences "xab. ab b.".toList "ab".toList =
      ["xab.".toList, " ab b.".toList] ∧
    brandSentencesOf "xab. ab b.".toList "ab".toList ≠
      specBrandSentences "xab. ab b.".toList "ab".toList := by
  decide

/-! ## C6: brand variant expansion for "WKKellogg" -/

/-- Counterexample to C6 as stated: the camel-case transform of the source
(`replace(/([A-Z])/g, ' $1').trim()`) inserts a space before every ASCII
upper-case letter, so it maps "WKKellogg" to "W K Kellogg", not to the
claimed "WK Kellogg". -/
theorem claim_C6_counterexample :
    camelSplit "WKKellogg".toList = "W K Kellogg".toList ∧
    camelSplit "WKKellogg".toList ≠ "WK Kellogg".toList := by
  decide

/-- C6 (amended): for brand name "WKKellogg" the combined case-insensitive
variant matcher matches "WK Kellogg", "Kellogg's" and "Kellogg" (also in
other letter cases) and does not match unrelated tokens; the form
"WK Kellogg" is produced by the leading-WK transform `replace(/^WK/, 'WK ')`,
while the camel-case transform (a space inserted before every internal —
indeed every — upper-case letter, then trimmed) maps "WKKellogg" to
"W K Kellogg". -/
theorem claim_C6_variant_matching :
    regexTestFresh (brandVariations "WKKellogg".toList) "WK Kellogg".toList = true ∧
    regexTestFresh (brandVariations "WKKellogg".toList)
      ("Kellogg".toList ++ [apos, 's']) = true ∧
    regexTestFresh (brandVariations "WKKellogg".toList) "Kellogg".toList = true ∧
    regexTestFresh (brandVariations "WKKellogg".toList) "wk kellogg".toList = true ∧
    regexTestFresh (brandVariations "WKKellogg".toList) "KELLOGG".toList = true ∧
    regexTestFresh (brandVariations "WKKellogg".toList) "General Mills".toList = false ∧
    regexTestFresh (brandVariations "WKKellogg".toList) "cereal brands".toList = false ∧
    wkSpaceVariant "WKKellogg".toList = "WK Kellogg".toList ∧
    "WK Kellogg".toList ∈ brandVariations "WKKellogg".toList ∧
    camelSplit "WKKellogg".toList = "W K Kellogg".toList := by
  decide

/-! ## C4: occurrence counts versus unique-word lists -/

theorem countStage_fst_eq_sum (ctx : List Char) (ws : List String) :
    ∀ acc : Nat × List String,
      (ws.foldl (countStep ctx) acc).1 =
        acc.1 + (ws.map (fun w => countOcc w.toList ctx)).sum := by
  induction ws with
  | nil => intro acc; simp
  | cons w rest ih =>
    intro acc
    rw [List.foldl_cons, ih, List.map_cons, List.sum_cons]
    unfold countStep
    by_cases hm : countOcc w.toList ctx > 0
    · rw [if_pos hm]
      omega
    · have h0 : countOcc w.toList ctx = 0 := by omega
      rw [if_neg hm]
      omega

theorem countStage_snd_mem (ctx : List Char) (ws : List String) :
    ∀ acc : Nat × List String, ∀ x : String,
      (x ∈ (ws.foldl (countStep ctx) acc).2 ↔
        x ∈ acc.2 ∨ (x ∈ ws ∧ 0 < countOcc x.toList ctx)) := by
  induction ws with
  | nil => intro acc x; simp
  | cons w rest ih =>
    intro acc x
    rw [List.foldl_cons, ih]
    unfold countStep
    by_cases hm : countOcc w.toList ctx > 0
    · rw [if_pos hm]
      by_cases hc : acc.2.contains w = true
      · have hw : w ∈ acc.2 := List.elem_iff.mp hc
        rw [if_pos hc]
        constructor
        · rintro (hx | hx)
          · exact Or.inl hx
          · exact Or.inr ⟨List.mem_cons_of_mem w hx.1, hx.2⟩
        · rintro (hx | ⟨hx, hocc⟩)
          · exact Or.inl hx
          · rcases List.mem_cons.mp hx with rfl | hx'
            · exact Or.inl hw
            · exact Or.inr ⟨hx', hocc⟩
      · rw [if_neg hc]
        simp only [List.mem_append, List.mem_singleton]
        constructor
        · rintro ((hx | rfl) | hx)
          · exact Or.inl hx
          · exact Or.inr ⟨List.mem_cons_self _ rest, hm⟩
          · exact Or.inr ⟨List.mem_cons_of_mem w hx.1, hx.2⟩
        · rintro (hx | ⟨hx, hocc⟩)
          · exact Or.inl (Or.inl hx)
          · rcases List.mem_cons.mp hx with rfl | hx'
            · exact Or.inl (Or.inr rfl)
            · exact Or.inr ⟨hx', hocc⟩
    · rw [if_neg hm]
      constructor
      · rintro (hx | hx)
        · exact Or.inl hx
        · exact Or.inr ⟨List.mem_cons_of_mem w hx.1, hx.2⟩
      · rintro (hx | ⟨hx, hocc⟩)
        · exact Or.inl hx
        · rcases List.mem_cons.mp hx with rfl | hx'
          · omega
          · exact Or.inr ⟨hx', hocc⟩

theorem countStage_snd_nodup (ctx : List Char) (ws : List String) :
    ∀ acc : Nat × List String, acc.2.Nodup →
      (ws.foldl (countStep ctx) acc).2.Nodup := by
  induction ws with
  | nil => intro acc h; exact h
  | cons w rest ih =>
    intro acc h
    rw [List.foldl_cons]
    apply ih
    unfold countStep
    by_cases hm : countOcc w.toList ctx > 0
    · rw [if_pos hm]
      by_cases hc : acc.2.contains w = true
      · rw [if_pos hc]; exact h
      · rw [if_neg hc]
        have hw : w ∉ acc.2 := fun hmem => hc (List.elem_iff.mpr hmem)
        simp only
        simp [List.nodup_append, h, hw]
    · rw [if_neg hm]; exact h

theorem countStage_length_le_fst (ctx : List Char) (ws : List String) :
    ∀ acc : Nat × List String, acc.2.length ≤ acc.1 →
      (ws.foldl (countStep ctx) acc).2.length ≤ (ws.foldl (countStep ctx) acc).1 := by
  induction ws with
  | nil => intro acc h; exact h
  | cons w rest ih =>
    intro acc h
    rw [List.foldl_cons]
    apply ih
    unfold countStep
    by_cases hm : countOcc w.toList ctx > 0
    · rw [if_pos hm]
      by_cases hc : acc.2.contains w = true
      · rw [if_pos hc]
        simp only
        omega
      · rw [if_neg hc]
        simp only [List.length_append, List.length_singleton]
        omega
    · rw [if_neg hm]; exact h

/-- C4: over any context window, for each of the two indicator lists, every
`\b`-anchored case-insensitive match of an indicator word contributes one
to that category's occurrence count (the count is the sum over words of
their match counts), a word enters the unique-word list exactly when it
has at least one match and at most once (the list has no duplicates), and
consequently each occurrence count is at least the length of its
unique-word list. -/
theorem claim_C4_counts_and_unique_words (ctx : List Char) :
    (countStage ctx positiveIndicators).1 =
      (positiveIndicators.map (fun w => countOcc w.toList ctx)).sum ∧
    (countStage ctx negativeIndicators).1 =
      (negativeIndicators.map (fun w => countOcc w.toList ctx)).sum ∧
    (∀ x, x ∈ (countStage ctx positiveIndicators).2 ↔
      x ∈ positiveIndicators ∧ 0 < countOcc x.toList ctx) ∧
    (∀ x, x ∈ (countStage ctx negativeIndicators).2 ↔
      x ∈ negativeIndicators ∧ 0 < countOcc x.toList ctx) ∧
    (countStage ctx positiveIndicators).2.Nodup ∧
    (countStage ctx negativeIndicators).2.Nodup ∧
    (countStage ctx positiveIndicators).2.length ≤ (countStage ctx positiveIndicators).1 ∧
    (countStage ctx negativeIndicators).2.length ≤ (countStage ctx negativeIndicators).1 := by
  refine ⟨?_, ?_, ?_, ?_, ?_, ?_, ?_, ?_⟩
  · simpa using countStage_fst_eq_sum ctx positiveIndicators (0, [])
  · simpa using countStage_fst_eq_sum ctx negativeIndicators (0, [])
  · intro x; simpa using countStage_snd_mem ctx positiveIndicators (0, []) x
  · intro x; simpa using countStage_snd_mem ctx negativeIndicators (0, []) x
  · exact countStage_snd_nodup ctx positiveIndicators (0, []) List.nodup_nil
  · exact countStage_snd_nodup ctx negativeIndicators (0, []) List.nodup_nil
  · exact countStage_length_le_fst ctx positiveIndicators (0, []) (by simp)
  · exact countStage_length_le_fst ctx negativeIndicators (0, []) (by simp)

/-! ## C5: the neutral medical list plays no role in negative counting -/

/-- Counting restricted to the indicator words not on an exclusion list:
what negative counting would be if the neutral medical terms were actually
filtered out.  The source never performs this filtering; this definition
exists only to be compared against the source's `countStage`. -/
def countStageExcluding (ctx : List Char) (words excl : List String) :
    Nat × List String :=
  countStage ctx (words.filter (fun w => !excl.contains w))

theorem analyzeBrandContext_negative_fields (text brandName : List Char) :
    (analyzeBrandContext text brandName).negativeCount =
      (if (brandSentencesOf text brandName).isEmpty then none
       else some (countStage (brandContextOf text brandName) negativeIndicators).1) ∧
    (analyzeBrandContext text brandName).negative =
      (if (brandSentencesOf text brandName).isEmpty then none
       else some (countStage (brandContextOf text brandName) negativeIndicators).2) := by
  simp only [analyzeBrandContext]
  cases hb : (brandSentencesOf text brandName).isEmpty <;> simp [hb]

/-- C5: the negative occurrence count and word list of the analyzer are
exactly those computed by the negative indicator list alone — identical to
counting with an empty exclusion list — while the declared neutral medical
list is never consulted: "adverse" is on both the negative and the neutral
medical list, it is still counted as negative (the context "ab adverse."
yields negative count 1 with word list ["adverse"]), and actually
excluding the neutral medical terms would have produced a different
result. -/
theorem claim_C5_neutral_list_unused :
    (∀ text brandName : List Char,
      (analyzeBrandContext text brandName).negativeCount =
        (if (brandSentencesOf text brandName).isEmpty then none
         else some (countStage (brandContextOf text brandName) negativeIndicators).1)) ∧
    (∀ text brandName : List Char,
      (analyzeBrandContext text brandName).negative =
        (if (brandSentencesOf text brandName).isEmpty then none
         else some (countStage (brandContextOf text brandName) negativeIndicators).2)) ∧
    (∀ ctx : List Char,
      countStage ctx negativeIndicators = countStageExcluding ctx negativeIndicators []) ∧
    "adverse" ∈ neutralMedical ∧
    "adverse" ∈ negativeIndicators ∧
    (analyzeBrandContext "ab adverse.".toList "ab".toList).negativeCount = some 1 ∧
    (analyzeBrandContext "ab adverse.".toList "ab".toList).negative = some ["adverse"] ∧
    countStageExcluding (brandContextOf "ab adverse.".toList "ab".toList)
        negativeIndicators neutralMedical ≠
      countStage (brandContextOf "ab adverse.".toList "ab".toList) negativeIndicators := by
  refine ⟨fun text brandName => (analyzeBrandContext_negative_fields text brandName).1,
    fun text brandName => (analyzeBrandContext_negative_fields text brandName).2,
    fun ctx => ?_, by decide, by decide, by decide, by decide, by decide⟩
  unfold countStageExcluding
  congr 1

/-! ## Aggregation: `generateDetailedInsights` and its data -/

/-- Removal of the first occurrence of `pat` from `s` (the behavior of
`String.prototype.replace` with a plain-string pattern and empty
replacement). -/
def stripFirstOcc (pat : List Char) : List Char → List Char
  | [] => []
  | c :: rest =>
    if pat.isPrefixOf (c :: rest) then (c :: rest).drop pat.length
    else c :: stripFirstOcc pat rest

/-- Embedding of the `getDomain` helper of `generateDetailedInsights`:
`new URL(url).hostname.replace('www.', '')`, falling back to the raw URL
string when URL parsing fails.  The platform URL parser is abstracted as a
`parseHost` function returning the hostname or `none`. -/
def getDomain (parseHost : String → Option String) (url : String) : String :=
  match parseHost url with
  | some host => String.mk (stripFirstOcc "www.".toList host.toList)
  | none => url

/-- Domain extraction as the specification words it: only a leading
"www." prefix of the host is stripped.  This definition follows the
specification, not the source, and exists to be compared with
`getDomain`. -/
def stripLeadingWWW (host : String) : String :=
  if "www.".toList.isPrefixOf host.toList then String.mk (host.toList.drop 4)
  else host

/-- The three classification values a scored page carries. -/
inductive Classification
  | positive
  | neutral
  | negative
deriving DecidableEq

/-- A per-domain classification tally, `{positive: 0, neutral: 0, negative: 0}`. -/
structure DomainTally where
  positive : Nat
  neutral : Nat
  negative : Nat
deriving DecidableEq

/-- The fields of a per-page analysis record that `generateDetailedInsights`
reads: its URL, status string, brand-mention flag and count, classification
(`none` embeds JavaScript `null`), and the truthiness of the `sentiment`
payload. -/
structure PageResult where
  url : String
  status : String
  mentionsBrand : Bool
  mentionCount : Nat
  classification : Option Classification
  sentiment : Bool
deriving DecidableEq

/-- Lookup in a JavaScript object used as a string-keyed map. -/
def objGet {α : Type} : List (String × α) → String → Option α
  | [], _ => none
  | (k, v) :: rest, d => if k = d then some v else objGet rest d

/-- Update of a JavaScript object used as a string-keyed map: an existing
key keeps its position, a new key is appended (insertion order). -/
def objSet {α : Type} : List (String × α) → String → α → List (String × α)
  | [], k, v => [(k, v)]
  | (k', v') :: rest, k, v =>
    if k' = k then (k, v) :: rest else (k', v') :: objSet rest k v

/-- Embedding of `domainSentiments[domain][result.classification]++`. -/
def bumpTally (t : DomainTally) : Classification → DomainTally
  | .positive => { t with positive := t.positive + 1 }
  | .neutral => { t with neutral := t.neutral + 1 }
  | .negative => { t with negative := t.negative + 1 }

/-- One iteration of the `results.forEach` loop of
`generateDetailedInsights`: for a page that mentions the brand, its
mention count is added to its domain's total, and when it carries a
classification the domain's tally (created as all-zero if absent) is
bumped. -/
def insightsStep (parseHost : String → Option String)
    (acc : List (String × Nat) × List (String × DomainTally)) (r : PageResult) :
    List (String × Nat) × List (String × DomainTally) :=
  let domain := getDomain parseHost r.url
  if r.mentionsBrand then
    let m := objSet acc.1 domain ((objGet acc.1 domain).getD 0 + r.mentionCount)
    match r.classification with
    | some c =>
      let t := (objGet acc.2 domain).getD ⟨0, 0, 0⟩
      (m, objSet acc.2 domain (bumpTally t c))
    | none => (m, acc.2)
  else acc

/-- The `domainMentions` and `domainSentiments` objects after the full
`forEach` loop. -/
def buildMaps (parseHost : String → Option String) (results : List PageResult) :
    List (String × Nat) × List (String × DomainTally) :=
  results.foldl (insightsStep parseHost) ([], [])

/-- Insertion step of a stable descending sort by count, the behavior of
`Object.entries(domainMentions).sort((a, b) => b[1] - a[1])` (JavaScript
array sort is stable, so equal counts stay in insertion order). -/
def insertByCount (l : List (String × Nat)) (x : String × Nat) :
    List (String × Nat) :=
  match l with
  | [] => [x]
  | y :: ys => if x.2 > y.2 then x :: y :: ys else y :: insertByCount ys x

/-- Stable descending sort of the domain-mention entries by count. -/
def sortEntries (l : List (String × Nat)) : List (String × Nat) :=
  l.foldl insertByCount []

/-- One element of `topDomains`: `{domain, count, sentiment}`. -/
structure TopDomain where
  domain : String
  count : Nat
  sentiment : Option DomainTally
deriving DecidableEq

/-- The `insights` object of `generateDetailedInsights`. -/
structure Insights where
  topDomains : List TopDomain
  totalPages : Nat
  successfulPages : Nat
  pagesWithMentions : Nat
  highMentionPages : Nat
  lowMentionPages : Nat
  positive : Nat
  neutral : Nat
  negative : Nat
  highMentionSentiment : DomainTally
deriving DecidableEq

/-- Embedding of `generateDetailedInsights(results, searchTerm)`. -/
def generateDetailedInsights (parseHost : String → Option String)
    (results : List PageResult) : Insights :=
  let successful := results.filter (fun r => r.status == "success" && r.sentiment)
  let withMentions := results.filter (fun r => r.mentionsBrand)
  let maps := buildMaps parseHost results
  let topDomains := ((sortEntries maps.1).take 5).map
    (fun e => TopDomain.mk e.1 e.2 (objGet maps.2 e.1))
  let highMentionPages := withMentions.filter (fun r => r.mentionCount ≥ 3)
  let lowMentionPages :=
    withMentions.filter (fun r => r.mentionCount < 3 && r.mentionCount > 0)
  { topDomains := topDomains,
    totalPages := results.length,
    successfulPages := successful.length,
    pagesWithMentions := withMentions.length,
    highMentionPages := highMentionPages.length,
    lowMentionPages := lowMentionPages.length,
    positive := (successful.filter (fun r => r.classification == some .positive)).length,
    neutral := (successful.filter (fun r => r.classification == some .neutral)).length,
    negative := (successful.filter (fun r => r.classification == some .negative)).length,
    highMentionSentiment :=
      { positive :=
          (highMentionPages.filter (fun r => r.classification == some .positive)).length,
        neutral :=
          (highMentionPages.filter (fun r => r.classification == some .neutral)).length,
        negative :=
          (highMentionPages.filter (fun r => r.classification == some .negative)).length } }

/-! ## C9: domain extraction -/

theorem stripFirstOcc_of_leading (pat l : List Char) (h : pat.isPrefixOf l = true) :
    stripFirstOcc pat l = l.drop pat.length := by
  cases l with
  | nil =>
    have : pat = [] := by
      cases pat with
      | nil => rfl
      | cons c cs => simp [List.isPrefixOf] at h
    subst this
    rfl
  | cons c rest =>
    rw [stripFirstOcc, if_pos h]

/-- A host on which stripping the first occurrence of "www." differs from
stripping a leading "www." prefix. -/
def parseHostInnerWWW : String → Option String :=
  fun u =>
    if u = "http://en.www.example.com/" then some "en.www.example.com" else none

/-- Counterexample to C9 as stated: for a URL whose host is
"en.www.example.com", `getDomain` removes the first occurrence of "www."
anywhere in the host and returns "en.example.com", while the claimed
leading-prefix stripping would leave the host unchanged. -/
theorem claim_C9_counterexample :
    parseHostInnerWWW "http://en.www.example.com/" = some "en.www.example.com" ∧
    getDomain parseHostInnerWWW "http://en.www.example.com/" = "en.example.com" ∧
    stripLeadingWWW "en.www.example.com" = "en.www.example.com" ∧
    getDomain parseHostInnerWWW "http://en.www.example.com/" ≠
      stripLeadingWWW "en.www.example.com" := by
  decide

/-- C9 (amended): `getDomain` never fails: when the URL parses it returns
the host with the first occurrence of "www." removed — which is exactly
the leading "www." prefix whenever the host starts with "www.", as in
"https://www.example.com/a/b" yielding "example.com" — and when the URL
does not parse it returns the raw input string unchanged. -/
theorem claim_C9_domain_extraction (parseHost : String → Option String)
    (url host : String) :
    (parseHost url = some host →
      getDomain parseHost url = String.mk (stripFirstOcc "www.".toList host.toList)) ∧
    (parseHost url = some host → "www.".toList.isPrefixOf host.toList = true →
      getDomain parseHost url = String.mk (host.toList.drop 4)) ∧
    (parseHost url = some host → "www.".toList.isPrefixOf host.toList = true →
      getDomain parseHost url = stripLeadingWWW host) ∧
    (parseHost url = none → getDomain parseHost url = url) ∧
    (parseHost url = some "www.example.com" →
      getDomain parseHost url = "example.com") := by
  refine ⟨?_, ?_, ?_, ?_, ?_⟩
  · intro hp
    unfold getDomain
    rw [hp]
  · intro hp hpre
    unfold getDomain
    rw [hp]
    show String.mk (stripFirstOcc "www.".toList host.toList) = _
    rw [stripFirstOcc_of_leading _ _ hpre]
    rfl
  · intro hp hpre
    unfold getDomain stripLeadingWWW
    rw [hp, if_pos hpre]
    show String.mk (stripFirstOcc "www.".toList host.toList) = _
    rw [stripFirstOcc_of_leading _ _ hpre]
    rfl
  · intro hp
    unfold getDomain
    rw [hp]
  · intro hp
    unfold getDomain
    rw [hp]
    rfl

/-! ## Map lemmas for aggregation -/

theorem objGet_objSet_self {α : Type} (m : List (String × α)) (k : String) (v : α) :
    objGet (objSet m k v) k = some v := by
  induction m with
  | nil => simp [objSet, objGet]
  | cons p rest ih =>
    obtain ⟨k', v'⟩ := p
    rw [objSet]
    by_cases hk : k' = k
    · rw [if_pos hk, objGet, if_pos rfl]
    · rw [if_neg hk, objGet, if_neg hk]
      exact ih

theorem objGet_objSet_ne {α : Type} (m : List (String × α)) (k d : String) (v : α)
    (h : d ≠ k) : objGet (objSet m k v) d = objGet m d := by
  induction m with
  | nil =>
    simp only [objSet, objGet]
    rw [if_neg (fun he => h he.symm)]
  | cons p rest ih =>
    obtain ⟨k', v'⟩ := p
    rw [objSet]
    by_cases hk : k' = k
    · subst hk
      rw [if_pos rfl, objGet, objGet, if_neg (fun he => h he.symm),
        if_neg (fun he => h he.symm)]
    · rw [if_neg hk, objGet, objGet]
      by_cases hd : k' = d
      · rw [if_pos hd, if_pos hd]
      · rw [if_neg hd, if_neg hd]
        exact ih

theorem mem_keys_objSet {α : Type} (m : List (String × α)) (k x : String) (v : α) :
    (x ∈ (objSet m k v).map Prod.fst) ↔ (x ∈ m.map Prod.fst ∨ x = k) := by
  induction m with
  | nil => simp [objSet]
  | cons p rest ih =>
    obtain ⟨k', v'⟩ := p
    rw [objSet]
    by_cases hk : k' = k
    · subst hk
      rw [if_pos rfl]
      simp only [List.map_cons, List.mem_cons]
      tauto
    · rw [if_neg hk]
      simp only [List.map_cons, List.mem_cons, ih]
      tauto

theorem objSet_keys_nodup {α : Type} (m : List (String × α)) (k : String) (v : α)
    (h : (m.map Prod.fst).Nodup) : ((objSet m k v).map Prod.fst).Nodup := by
  induction m with
  | nil => simp [objSet]
  | cons p rest ih =>
    obtain ⟨k', v'⟩ := p
    rw [objSet]
    by_cases hk : k' = k
    · subst hk
      rw [if_pos rfl]
      simpa using h
    · rw [if_neg hk]
      simp only [List.map_cons, List.nodup_cons] at h ⊢
      refine ⟨?_, ih h.2⟩
      rw [mem_keys_objSet]
      rintro (hmem | rfl)
      · exact h.1 hmem
      · exact hk rfl

theorem objGet_eq_some_of_mem_of_nodup {α : Type} (m : List (String × α))
    (h : (m.map Prod.fst).Nodup) (k : String) (v : α) (hm : (k, v) ∈ m) :
    objGet m k = some v := by
  induction m with
  | nil => cases hm
  | cons p rest ih =>
    obtain ⟨k', v'⟩ := p
    simp only [List.map_cons, List.nodup_cons] at h
    rcases List.mem_cons.mp hm with heq | hm'
    · cases heq
      rw [objGet, if_pos rfl]
    · rw [objGet]
      by_cases hk : k' = k
      · subst hk
        exfalso
        exact h.1 (List.mem_map_of_mem Prod.fst hm')
      · rw [if_neg hk]
        exact ih h.2 hm'

theorem mem_of_objGet_eq_some {α : Type} (m : List (String × α)) (k : String) (v : α)
    (h : objGet m k = some v) : (k, v) ∈ m := by
  induction m with
  | nil => cases h
  | cons p rest ih =>
    obtain ⟨k', v'⟩ := p
    rw [objGet] at h
    by_cases hk : k' = k
    · rw [if_pos hk] at h
      cases h
      subst hk
      exact List.mem_cons_self _ _
    · rw [if_neg hk] at h
      exact List.mem_cons_of_mem _ (ih h)

theorem perm_of_objGet_eq {α : Type} (m₁ m₂ : List (String × α))
    (h₁ : (m₁.map Prod.fst).Nodup) (h₂ : (m₂.map Prod.fst).Nodup)
    (h : ∀ d, objGet m₁ d = objGet m₂ d) : m₁.Perm m₂ := by
  refine (List.perm_ext_iff_of_nodup (h₁.of_map _) (h₂.of_map _)).mpr ?_
  rintro ⟨k, v⟩
  constructor
  · intro hm
    exact mem_of_objGet_eq_some m₂ k v ((h k) ▸ objGet_eq_some_of_mem_of_nodup m₁ h₁ k v hm)
  · intro hm
    exact mem_of_objGet_eq_some m₁ k v ((h k).symm ▸ objGet_eq_some_of_mem_of_nodup m₂ h₂ k v hm)

/-! ## Characterizing the aggregation folds -/

/-- The effect of one `forEach` iteration on `domainMentions` alone. -/
def stepFst (parseHost : String → Option String) (m : List (String × Nat))
    (r : PageResult) : List (String × Nat) :=
  if r.mentionsBrand then
    objSet m (getDomain parseHost r.url)
      ((objGet m (getDomain parseHost r.url)).getD 0 + r.mentionCount)
  else m

/-- The effect of one `forEach` iteration on `domainSentiments` alone. -/
def stepSnd (parseHost : String → Option String) (m : List (String × DomainTally))
    (r : PageResult) : List (String × DomainTally) :=
  if r.mentionsBrand then
    match r.classification with
    | some c =>
      objSet m (getDomain parseHost r.url)
        (bumpTally ((objGet m (getDomain parseHost r.url)).getD ⟨0, 0, 0⟩) c)
    | none => m
  else m

theorem foldl_insightsStep_fst (parseHost : String → Option String) :
    ∀ (l : List PageResult) (acc : List (String × Nat) × List (String × DomainTally)),
      (l.foldl (insightsStep parseHost) acc).1 = l.foldl (stepFst parseHost) acc.1 := by
  intro l
  induction l with
  | nil => intro acc; rfl
  | cons r rest ih =>
    intro acc
    rw [List.foldl_cons, List.foldl_cons, ih]
    congr 1
    unfold insightsStep stepFst
    by_cases hm : r.mentionsBrand
    · rw [if_pos hm, if_pos hm]
      cases hc : r.classification <;> simp
    · rw [if_neg hm, if_neg hm]

theorem foldl_insightsStep_snd (parseHost : String → Option String) :
    ∀ (l : List PageResult) (acc : List (String × Nat) × List (String × DomainTally)),
      (l.foldl (insightsStep parseHost) acc).2 = l.foldl (stepSnd parseHost) acc.2 := by
  intro l
  induction l with
  | nil => intro acc; rfl
  | cons r rest ih =>
    intro acc
    rw [List.foldl_cons, List.foldl_cons, ih]
    congr 1
    unfold insightsStep stepSnd
    by_cases hm : r.mentionsBrand
    · rw [if_pos hm, if_pos hm]
      cases hc : r.classification <;> simp
    · rw [if_neg hm, if_neg hm]

/-- A page contributing to `domainMentions[d]`. -/
def relevantMention (parseHost : String → Option String) (d : String)
    (r : PageResult) : Bool :=
  r.mentionsBrand && (getDomain parseHost r.url == d)

/-- The total mention count contributed to domain `d` by the pages of `l`. -/
def mentionSum (parseHost : String → Option String) (d : String)
    (l : List PageResult) : Nat :=
  ((l.filter (relevantMention parseHost d)).map PageResult.mentionCount).sum

theorem mentionSum_nil_of_not_any (parseHost : String → Option String) (d : String)
    (l : List PageResult) (h : l.any (relevantMention parseHost d) = false) :
    mentionSum parseHost d l = 0 := by
  unfold mentionSum
  have : l.filter (relevantMention parseHost d) = [] := by
    rw [List.filter_eq_nil_iff]
    intro a ha
    have := List.any_eq_false.mp h a ha
    simpa using this
  rw [this]
  rfl

theorem foldl_stepFst_objGet (parseHost : String → Option String) (d : String) :
    ∀ (l : List PageResult) (m : List (String × Nat)),
      objGet (l.foldl (stepFst parseHost) m) d =
        if l.any (relevantMention parseHost d) then
          some ((objGet m d).getD 0 + mentionSum parseHost d l)
        else objGet m d := by
  intro l
  induction l with
  | nil =>
    intro m
    simp
  | cons r rest ih =>
    intro m
    rw [List.foldl_cons, ih]
    by_cases hm : r.mentionsBrand
    · by_cases hd : getDomain parseHost r.url = d
      · have hrel : relevantMention parseHost d r = true := by
          simp [relevantMention, hm, hd]
        have hany : (r :: rest).any (relevantMention parseHost d) = true := by
          simp [hrel]
        have hsum : mentionSum parseHost d (r :: rest) =
            r.mentionCount + mentionSum parseHost d rest := by
          unfold mentionSum
          rw [List.filter_cons_of_pos hrel]
          simp
        rw [hany, if_pos rfl, hsum]
        have hset : objGet (stepFst parseHost m r) d =
            some ((objGet m d).getD 0 + r.mentionCount) := by
          unfold stepFst
          rw [if_pos hm, hd]
          exact objGet_objSet_self m d _
        cases hrest : rest.any (relevantMention parseHost d)
        · rw [if_neg (by simp), hset,
            mentionSum_nil_of_not_any parseHost d rest hrest]
          simp
        · rw [if_pos rfl, hset]
          simp only [Option.getD_some, Option.some.injEq]
          omega
      · have hrel : relevantMention parseHost d r = false := by
          simp [relevantMention, hd]
        have hget : objGet (stepFst parseHost m r) d = objGet m d := by
          unfold stepFst
          rw [if_pos hm]
          exact objGet_objSet_ne m _ d _ (fun he => hd he.symm)
        have hany : (r :: rest).any (relevantMention parseHost d) =
            rest.any (relevantMention parseHost d) := by
          simp [hrel]
        have hsum : mentionSum parseHost d (r :: rest) = mentionSum parseHost d rest := by
          unfold mentionSum
          rw [List.filter_cons_of_neg (by simp [hrel])]
        rw [hany, hsum, hget]
    · have hrel : relevantMention parseHost d r = false := by
        simp [relevantMention, hm]
      have hget : stepFst parseHost m r = m := by
        unfold stepFst
        rw [if_neg hm]
      have hany : (r :: rest).any (relevantMention parseHost d) =
          rest.any (relevantMention parseHost d) := by
        simp [hrel]
      have hsum : mentionSum parseHost d (r :: rest) = mentionSum parseHost d rest := by
        unfold mentionSum
        rw [List.filter_cons_of_neg (by simp [hrel])]
      rw [hany, hsum, hget]

/-- A page contributing to `domainSentiments[d]`. -/
def relevantClass (parseHost : String → Option String) (d : String)
    (r : PageResult) : Bool :=
  r.mentionsBrand && r.classification.isSome && (getDomain parseHost r.url == d)

/-- Pages of `l` contributing classification `c` to domain `d`. -/
def classCount (parseHost : String → Option String) (d : String)
    (c : Classification) (l : List PageResult) : Nat :=
  l.countP (fun r => relevantClass parseHost d r && (r.classification == some c))

/-- The classification tally contributed to domain `d` by the pages of `l`. -/
def tallySum (parseHost : String → Option String) (d : String)
    (l : List PageResult) : DomainTally :=
  ⟨classCount parseHost d .positive l, classCount parseHost d .neutral l,
   classCount parseHost d .negative l⟩

/-- Componentwise sum of tallies. -/
def addTally (a b : DomainTally) : DomainTally :=
  ⟨a.positive + b.positive, a.neutral + b.neutral, a.negative + b.negative⟩

theorem classCount_cons_self (parseHost : String → Option String) (d : String)
    (c : Classification) (r : PageResult) (rest : List PageResult)
    (hrel : relevantClass parseHost d r = true) (hc : r.classification = some c) :
    ∀ c' : Classification, classCount parseHost d c' (r :: rest) =
      (if c' = c then 1 else 0) + classCount parseHost d c' rest := by
  intro c'
  unfold classCount
  rw [List.countP_cons]
  by_cases hcc : c' = c
  · subst hcc
    have hp : (relevantClass parseHost d r && (r.classification == some c')) = true := by
      rw [hrel, hc]
      simp
    rw [hp]
    simp
    omega
  · have hp : (relevantClass parseHost d r && (r.classification == some c')) = false := by
      rw [hrel, hc]
      simp
      exact fun he => hcc he.symm
    rw [hp, if_neg hcc]
    simp

theorem classCount_cons_irrel (parseHost : String → Option String) (d : String)
    (r : PageResult) (rest : List PageResult)
    (hrel : relevantClass parseHost d r = false) :
    ∀ c' : Classification, classCount parseHost d c' (r :: rest) =
      classCount parseHost d c' rest := by
  intro c'
  unfold classCount
  rw [List.countP_cons, Bool.and_eq_false_iff.mpr (Or.inl hrel)]
  simp

theorem tallySum_nil_of_not_any (parseHost : String → Option String) (d : String)
    (l : List PageResult) (h : l.any (relevantClass parseHost d) = false) :
    tallySum parseHost d l = ⟨0, 0, 0⟩ := by
  have hc : ∀ c, classCount parseHost d c l = 0 := by
    intro c
    unfold classCount
    rw [List.countP_eq_zero]
    intro r hr
    have hrel : relevantClass parseHost d r = false := by
      have := List.any_eq_false.mp h r hr
      simpa using this
    simp [hrel]
  unfold tallySum
  rw [hc, hc, hc]

/-- The tally of a single page classified `c`. -/
def tallySum_unit (c : Classification) : DomainTally :=
  match c with
  | .positive => ⟨1, 0, 0⟩
  | .neutral => ⟨0, 1, 0⟩
  | .negative => ⟨0, 0, 1⟩

theorem bumpTally_eq_addTally (t : DomainTally) (c : Classification) :
    bumpTally t c = addTally t (tallySum_unit c) := by
  cases c <;> rfl

theorem addTally_assoc (a b c : DomainTally) :
    addTally (addTally a b) c = addTally a (addTally b c) := by
  simp [addTally, Nat.add_assoc]

theorem addTally_zero (a : DomainTally) : addTally a ⟨0, 0, 0⟩ = a := by
  simp [addTally]

theorem tallySum_cons_rel (parseHost : String → Option String) (d : String)
    (c : Classification) (r : PageResult) (rest : List PageResult)
    (hrel : relevantClass parseHost d r = true) (hc : r.classification = some c) :
    tallySum parseHost d (r :: rest) =
      addTally (tallySum_unit c) (tallySum parseHost d rest) := by
  unfold tallySum
  rw [classCount_cons_self parseHost d c r rest hrel hc,
    classCount_cons_self parseHost d c r rest hrel hc,
    classCount_cons_self parseHost d c r rest hrel hc]
  cases c <;> simp [addTally, tallySum_unit]

theorem tallySum_cons_irrel (parseHost : String → Option String) (d : String)
    (r : PageResult) (rest : List PageResult)
    (hrel : relevantClass parseHost d r = false) :
    tallySum parseHost d (r :: rest) = tallySum parseHost d rest := by
  unfold tallySum
  rw [classCount_cons_irrel parseHost d r rest hrel,
    classCount_cons_irrel parseHost d r rest hrel,
    classCount_cons_irrel parseHost d r rest hrel]

theorem foldl_stepSnd_objGet (parseHost : String → Option String) (d : String) :
    ∀ (l : List PageResult) (m : List (String × DomainTally)),
      objGet (l.foldl (stepSnd parseHost) m) d =
        if l.any (relevantClass parseHost d) then
          some (addTally ((objGet m d).getD ⟨0, 0, 0⟩) (tallySum parseHost d l))
        else objGet m d := by
  intro l
  induction l with
  | nil =>
    intro m
    simp
  | cons r rest ih =>
    intro m
    rw [List.foldl_cons, ih]
    by_cases hm : r.mentionsBrand
    · cases hc : r.classification with
      | none =>
        have hrel : relevantClass parseHost d r = false := by
          simp [relevantClass, hc]
        have hget : stepSnd parseHost m r = m := by
          unfold stepSnd
          rw [if_pos hm, hc]
        have hany : (r :: rest).any (relevantClass parseHost d) =
            rest.any (relevantClass parseHost d) := by
          simp [hrel]
        rw [hany, tallySum_cons_irrel parseHost d r rest hrel, hget]
      | some c =>
        by_cases hd : getDomain parseHost r.url = d
        · have hrel : relevantClass parseHost d r = true := by
            simp [relevantClass, hm, hd, hc]
          have hany : (r :: rest).any (relevantClass parseHost d) = true := by
            simp [hrel]
          have hget : objGet (stepSnd parseHost m r) d =
              some (bumpTally ((objGet m d).getD ⟨0, 0, 0⟩) c) := by
            unfold stepSnd
            rw [if_pos hm, hc, hd]
            exact objGet_objSet_self m d _
          rw [hany, if_pos rfl, tallySum_cons_rel parseHost d c r rest hrel hc]
          cases hrest : rest.any (relevantClass parseHost d)
          · rw [if_neg (by simp), hget,
              tallySum_nil_of_not_any parseHost d rest hrest, addTally_zero,
              bumpTally_eq_addTally]
          · rw [if_pos rfl, hget]
            simp only [Option.getD_some, Option.some.injEq]
            rw [bumpTally_eq_addTally, addTally_assoc]
        · have hrel : relevantClass parseHost d r = false := by
            simp [relevantClass, hd]
          have hget : objGet (stepSnd parseHost m r) d = objGet m d := by
            unfold stepSnd
            rw [if_pos hm, hc]
            exact objGet_objSet_ne m _ d _ (fun he => hd he.symm)
          have hany : (r :: rest).any (relevantClass parseHost d) =
              rest.any (relevantClass parseHost d) := by
            simp [hrel]
          rw [hany, tallySum_cons_irrel parseHost d r rest hrel, hget]
    · have hrel : relevantClass parseHost d r = false := by
        simp [relevantClass, hm]
      have hget : stepSnd parseHost m r = m := by
        unfold stepSnd
        rw [if_neg hm]
      have hany : (r :: rest).any (relevantClass parseHost d) =
          rest.any (relevantClass parseHost d) := by
        simp [hrel]
      rw [hany, tallySum_cons_irrel parseHost d r rest hrel, hget]

/-! ## Permutation invariance of the aggregation maps -/

theorem anyPerm_congr {α : Type} (p : α → Bool) {l1 l2 : List α} (h : l1.Perm l2) :
    l1.any p = l2.any p := by
  cases h1 : l1.any p <;> cases h2 : l2.any p <;> try rfl
  · rcases List.any_eq_true.mp h2 with ⟨x, hx, hp⟩
    have := List.any_eq_false.mp h1 x (h.mem_iff.mpr hx)
    simp [hp] at this
  · rcases List.any_eq_true.mp h1 with ⟨x, hx, hp⟩
    have := List.any_eq_false.mp h2 x (h.mem_iff.mp hx)
    simp [hp] at this

theorem mentionSum_perm (parseHost : String → Option String) (d : String)
    {l1 l2 : List PageResult} (h : l1.Perm l2) :
    mentionSum parseHost d l1 = mentionSum parseHost d l2 :=
  List.Perm.sum_eq ((h.filter _).map _)

theorem classCount_perm (parseHost : String → Option String) (d : String)
    (c : Classification) {l1 l2 : List PageResult} (h : l1.Perm l2) :
    classCount parseHost d c l1 = classCount parseHost d c l2 :=
  List.Perm.countP_congr h (fun _ _ => rfl)

theorem tallySum_perm (parseHost : String → Option String) (d : String)
    {l1 l2 : List PageResult} (h : l1.Perm l2) :
    tallySum parseHost d l1 = tallySum parseHost d l2 := by
  unfold tallySum
  rw [classCount_perm parseHost d _ h, classCount_perm parseHost d _ h,
    classCount_perm parseHost d _ h]

theorem zero_addTally (a : DomainTally) : addTally ⟨0, 0, 0⟩ a = a := by
  simp [addTally]

theorem domainMentions_objGet (parseHost : String → Option String)
    (l : List PageResult) (d : String) :
    objGet (buildMaps parseHost l).1 d =
      if l.any (relevantMention parseHost d) then some (mentionSum parseHost d l)
      else none := by
  unfold buildMaps
  rw [foldl_insightsStep_fst, foldl_stepFst_objGet]
  simp [objGet]

theorem domainSentiments_objGet (parseHost : String → Option String)
    (l : List PageResult) (d : String) :
    objGet (buildMaps parseHost l).2 d =
      if l.any (relevantClass parseHost d) then some (tallySum parseHost d l)
      else none := by
  unfold buildMaps
  rw [foldl_insightsStep_snd, foldl_stepSnd_objGet]
  simp [objGet, zero_addTally]

theorem buildMaps_fst_objGet_perm (parseHost : String → Option String)
    {l1 l2 : List PageResult} (h : l1.Perm l2) (d : String) :
    objGet (buildMaps parseHost l1).1 d = objGet (buildMaps parseHost l2).1 d := by
  rw [domainMentions_objGet, domainMentions_objGet,
    anyPerm_congr (relevantMention parseHost d) h, mentionSum_perm parseHost d h]

theorem buildMaps_snd_objGet_perm (parseHost : String → Option String)
    {l1 l2 : List PageResult} (h : l1.Perm l2) (d : String) :
    objGet (buildMaps parseHost l1).2 d = objGet (buildMaps parseHost l2).2 d := by
  rw [domainSentiments_objGet, domainSentiments_objGet,
    anyPerm_congr (relevantClass parseHost d) h, tallySum_perm parseHost d h]

theorem foldl_stepFst_keys_nodup (parseHost : String → Option String) :
    ∀ (l : List PageResult) (m : List (String × Nat)),
      (m.map Prod.fst).Nodup → ((l.foldl (stepFst parseHost) m).map Prod.fst).Nodup := by
  intro l
  induction l with
  | nil => intro m h; exact h
  | cons r rest ih =>
    intro m h
    rw [List.foldl_cons]
    apply ih
    unfold stepFst
    by_cases hm : r.mentionsBrand
    · rw [if_pos hm]
      exact objSet_keys_nodup m _ _ h
    · rw [if_neg hm]
      exact h

theorem foldl_stepSnd_keys_nodup (parseHost : String → Option String) :
    ∀ (l : List PageResult) (m : List (String × DomainTally)),
      (m.map Prod.fst).Nodup → ((l.foldl (stepSnd parseHost) m).map Prod.fst).Nodup := by
  intro l
  induction l with
  | nil => intro m h; exact h
  | cons r rest ih =>
    intro m h
    rw [List.foldl_cons]
    apply ih
    unfold stepSnd
    by_cases hm : r.mentionsBrand
    · rw [if_pos hm]
      cases r.classification with
      | some c => exact objSet_keys_nodup m _ _ h
      | none => exact h
    · rw [if_neg hm]
      exact h

theorem buildMaps_fst_keys_nodup (parseHost : String → Option String)
    (l : List PageResult) : (((buildMaps parseHost l).1).map Prod.fst).Nodup := by
  unfold buildMaps
  rw [foldl_insightsStep_fst]
  exact foldl_stepFst_keys_nodup parseHost l [] (by simp)

theorem buildMaps_snd_keys_nodup (parseHost : String → Option String)
    (l : List PageResult) : (((buildMaps parseHost l).2).map Prod.fst).Nodup := by
  unfold buildMaps
  rw [foldl_insightsStep_snd]
  exact foldl_stepSnd_keys_nodup parseHost l [] (by simp)

/-! ## The stable sort of domain entries -/

theorem insertByCount_perm (l : List (String × Nat)) (x : String × Nat) :
    (insertByCount l x).Perm (x :: l) := by
  induction l with
  | nil => exact List.Perm.refl _
  | cons y ys ih =>
    rw [insertByCount]
    by_cases hx : x.2 > y.2
    · rw [if_pos hx]
    · rw [if_neg hx]
      exact (ih.cons y).trans (List.Perm.swap x y ys)

theorem foldl_insertByCount_perm :
    ∀ (l acc : List (String × Nat)), (l.foldl insertByCount acc).Perm (acc ++ l) := by
  intro l
  induction l with
  | nil => intro acc; simp
  | cons x xs ih =>
    intro acc
    rw [List.foldl_cons]
    refine (ih (insertByCount acc x)).trans ?_
    refine (((insertByCount_perm acc x).append_right xs).trans ?_)
    exact (List.perm_middle).symm

theorem sortEntries_perm (l : List (String × Nat)) : (sortEntries l).Perm l := by
  unfold sortEntries
  simpa using foldl_insertByCount_perm l []

theorem insertByCount_pairwise (l : List (String × Nat)) (x : String × Nat)
    (h : l.Pairwise (fun a b => b.2 ≤ a.2)) :
    (insertByCount l x).Pairwise (fun a b => b.2 ≤ a.2) := by
  induction l with
  | nil => simp [insertByCount]
  | cons y ys ih =>
    rw [insertByCount]
    rcases List.pairwise_cons.mp h with ⟨hy, hys⟩
    by_cases hx : x.2 > y.2
    · rw [if_pos hx]
      refine List.pairwise_cons.mpr ⟨?_, h⟩
      intro z hz
      rcases List.mem_cons.mp hz with rfl | hz'
      · omega
      · have := hy z hz'
        omega
    · rw [if_neg hx]
      refine List.pairwise_cons.mpr ⟨?_, ih hys⟩
      intro z hz
      have hz2 : z ∈ x :: ys := (insertByCount_perm ys x).mem_iff.mp hz
      rcases List.mem_cons.mp hz2 with rfl | hz'
      · omega
      · exact hy z hz'

theorem sortEntries_pairwise (l : List (String × Nat)) :
    (sortEntries l).Pairwise (fun a b => b.2 ≤ a.2) := by
  unfold sortEntries
  have aux : ∀ (t acc : List (String × Nat)),
      acc.Pairwise (fun a b => b.2 ≤ a.2) →
      (t.foldl insertByCount acc).Pairwise (fun a b => b.2 ≤ a.2) := by
    intro t
    induction t with
    | nil => intro acc h; exact h
    | cons x xs ih =>
      intro acc h
      rw [List.foldl_cons]
      exact ih _ (insertByCount_pairwise acc x h)
  exact aux l [] (by simp)

theorem sortEntries_eq_of_perm_of_nodup_counts (l1 l2 : List (String × Nat))
    (hp : l1.Perm l2) (hn : (l1.map Prod.snd).Nodup) :
    sortEntries l1 = sortEntries l2 := by
  have hperm : (sortEntries l1).Perm (sortEntries l2) :=
    (sortEntries_perm l1).trans (hp.trans (sortEntries_perm l2).symm)
  have hn1 : ((sortEntries l1).map Prod.snd).Nodup :=
    (((sortEntries_perm l1).map Prod.snd).nodup_iff).mpr hn
  have hn2 : ((sortEntries l2).map Prod.snd).Nodup :=
    ((hperm.map Prod.snd).nodup_iff).mp hn1
  have hstrict : ∀ t : List (String × Nat), (t.map Prod.snd).Nodup →
      t.Pairwise (fun a b => b.2 ≤ a.2) → t.Pairwise (fun a b => b.2 < a.2) := by
    intro t htn htp
    have hne : t.Pairwise (fun a b : String × Nat => a.2 ≠ b.2) :=
      List.pairwise_map.mp htn
    exact (htp.and hne).imp (fun hab => lt_of_le_of_ne hab.1 (fun he => hab.2 he.symm))
  have hs1 := hstrict _ hn1 (sortEntries_pairwise l1)
  have hs2 := hstrict _ hn2 (sortEntries_pairwise l2)
  haveI : IsAntisymm (String × Nat) (fun a b => b.2 < a.2) :=
    ⟨fun a b h1 h2 => absurd (lt_trans h1 h2) (lt_irrefl _)⟩
  exact List.eq_of_perm_of_sorted hperm hs1 hs2

/-! ## C7: aggregation is order-independent -/

theorem DomainTally_ext (a b : DomainTally) (h1 : a.positive = b.positive)
    (h2 : a.neutral = b.neutral) (h3 : a.negative = b.negative) : a = b := by
  cases a
  cases b
  simp_all

theorem Insights_ext (a b : Insights)
    (h1 : a.topDomains = b.topDomains)
    (h2 : a.totalPages = b.totalPages)
    (h3 : a.successfulPages = b.successfulPages)
    (h4 : a.pagesWithMentions = b.pagesWithMentions)
    (h5 : a.highMentionPages = b.highMentionPages)
    (h6 : a.lowMentionPages = b.lowMentionPages)
    (h7 : a.positive = b.positive)
    (h8 : a.neutral = b.neutral)
    (h9 : a.negative = b.negative)
    (h10 : a.highMentionSentiment = b.highMentionSentiment) : a = b := by
  cases a
  cases b
  simp_all

/-- C7: aggregation is order-independent.  For every permutation of the
page list: the per-domain mention totals and per-domain classification
tallies agree as maps, every corpus tally (total, successful, mentioning,
high- and low-mention page counts, positive/neutral/negative counts, and
the high-mention sentiment breakdown) agrees, and whenever the domain
mention totals are pairwise distinct — the case in which the stable
tie-break among equal totals cannot matter — the whole insights object,
its ranked top-5 domain list included, is identical. -/
theorem claim_C7_aggregation_order_independent (parseHost : String → Option String)
    (l1 l2 : List PageResult) (hp : l1.Perm l2) :
    (∀ d, objGet (buildMaps parseHost l1).1 d = objGet (buildMaps parseHost l2).1 d) ∧
    (∀ d, objGet (buildMaps parseHost l1).2 d = objGet (buildMaps parseHost l2).2 d) ∧
    (generateDetailedInsights parseHost l1).totalPages =
      (generateDetailedInsights parseHost l2).totalPages ∧
    (generateDetailedInsights parseHost l1).successfulPages =
      (generateDetailedInsights parseHost l2).successfulPages ∧
    (generateDetailedInsights parseHost l1).pagesWithMentions =
      (generateDetailedInsights parseHost l2).pagesWithMentions ∧
    (generateDetailedInsights parseHost l1).highMentionPages =
      (generateDetailedInsights parseHost l2).highMentionPages ∧
    (generateDetailedInsights parseHost l1).lowMentionPages =
      (generateDetailedInsights parseHost l2).lowMentionPages ∧
    (generateDetailedInsights parseHost l1).positive =
      (generateDetailedInsights parseHost l2).positive ∧
    (generateDetailedInsights parseHost l1).neutral =
      (generateDetailedInsights parseHost l2).neutral ∧
    (generateDetailedInsights parseHost l1).negative =
      (generateDetailedInsights parseHost l2).negative ∧
    (generateDetailedInsights parseHost l1).highMentionSentiment =
      (generateDetailedInsights parseHost l2).highMentionSentiment ∧
    ((((buildMaps parseHost l1).1).map Prod.snd).Nodup →
      generateDetailedInsights parseHost l1 = generateDetailedInsights parseHost l2) := by
  have htop : ∀ hn : (((buildMaps parseHost l1).1).map Prod.snd).Nodup,
      (generateDetailedInsights parseHost l1).topDomains =
        (generateDetailedInsights parseHost l2).topDomains := by
    intro hn
    have hmperm : ((buildMaps parseHost l1).1).Perm ((buildMaps parseHost l2).1) :=
      perm_of_objGet_eq _ _ (buildMaps_fst_keys_nodup parseHost l1)
        (buildMaps_fst_keys_nodup parseHost l2) (buildMaps_fst_objGet_perm parseHost hp)
    have hmfst : sortEntries (buildMaps parseHost l1).1 =
        sortEntries (buildMaps parseHost l2).1 :=
      sortEntries_eq_of_perm_of_nodup_counts _ _ hmperm hn
    show ((sortEntries (buildMaps parseHost l1).1).take 5).map
        (fun e => TopDomain.mk e.1 e.2 (objGet (buildMaps parseHost l1).2 e.1)) =
      ((sortEntries (buildMaps parseHost l2).1).take 5).map
        (fun e => TopDomain.mk e.1 e.2 (objGet (buildMaps parseHost l2).2 e.1))
    rw [hmfst]
    exact List.map_eq_map_iff.mpr
      (fun e _ => by rw [buildMaps_snd_objGet_perm parseHost hp e.1])
  have htot : (generateDetailedInsights parseHost l1).totalPages =
      (generateDetailedInsights parseHost l2).totalPages := hp.length_eq
  have hsucc : (generateDetailedInsights parseHost l1).successfulPages =
      (generateDetailedInsights parseHost l2).successfulPages :=
    (hp.filter _).length_eq
  have hwm : (generateDetailedInsights parseHost l1).pagesWithMentions =
      (generateDetailedInsights parseHost l2).pagesWithMentions :=
    (hp.filter _).length_eq
  have hhigh : (generateDetailedInsights parseHost l1).highMentionPages =
      (generateDetailedInsights parseHost l2).highMentionPages :=
    ((hp.filter _).filter _).length_eq
  have hlow : (generateDetailedInsights parseHost l1).lowMentionPages =
      (generateDetailedInsights parseHost l2).lowMentionPages :=
    ((hp.filter _).filter _).length_eq
  have hpos : (generateDetailedInsights parseHost l1).positive =
      (generateDetailedInsights parseHost l2).positive :=
    ((hp.filter _).filter _).length_eq
  have hneu : (generateDetailedInsights parseHost l1).neutral =
      (generateDetailedInsights parseHost l2).neutral :=
    ((hp.filter _).filter _).length_eq
  have hneg : (generateDetailedInsights parseHost l1).negative =
      (generateDetailedInsights parseHost l2).negative :=
    ((hp.filter _).filter _).length_eq
  have hhms : (generateDetailedInsights parseHost l1).highMentionSentiment =
      (generateDetailedInsights parseHost l2).highMentionSentiment :=
    DomainTally_ext _ _ (((hp.filter _).filter _).filter _).length_eq
      (((hp.filter _).filter _).filter _).length_eq
      (((hp.filter _).filter _).filter _).length_eq
  refine ⟨buildMaps_fst_objGet_perm parseHost hp,
    buildMaps_snd_objGet_perm parseHost hp,
    htot, hsucc, hwm, hhigh, hlow, hpos, hneu, hneg, hhms, ?_⟩
  intro hn
  exact Insights_ext _ _ (htop hn) htot hsucc hwm hhigh hlow hpos hneu hneg hhms

/-- A concrete successful positive page used by the C7 witness. -/
def pageA : PageResult :=
  ⟨"https://a.example/x", "success", true, 2, some .positive, true⟩

/-- A concrete successful negative page used by the C7 witness. -/
def pageB : PageResult :=
  ⟨"https://b.example/y", "success", true, 5, some .negative, true⟩

/-- Witness for C7: swapping two concrete pages with distinct domains and
distinct mention totals yields the identical insights object. -/
theorem claim_C7_witness :
    generateDetailedInsights (fun _ => none) [pageA, pageB] =
      generateDetailedInsights (fun _ => none) [pageB, pageA] :=
  (claim_C7_aggregation_order_independent (fun _ => none) [pageA, pageB]
    [pageB, pageA]
    (List.Perm.swap pageB pageA [])).2.2.2.2.2.2.2.2.2.2.2 (by decide)

/-! ## C8: error records are inert in aggregation -/

theorem filter_success_filter_error (l : List PageResult) :
    (l.filter (fun r => !(r.status == "error"))).filter
        (fun r => r.status == "success" && r.sentiment) =
      l.filter (fun r => r.status == "success" && r.sentiment) := by
  rw [List.filter_filter]
  apply List.filter_congr
  intro r _
  by_cases hs : r.status = "success"
  · have he : (r.status == "error") = false := by
      rw [hs]
      decide
    have hy : (r.status == "success") = true := by
      rw [hs]
      decide
    rw [he, hy]
    simp
  · have hy : (r.status == "success") = false := by
      simpa using hs
    rw [hy]
    simp

theorem foldl_stepSnd_filter_error (parseHost : String → Option String) :
    ∀ (l : List PageResult), (∀ r ∈ l, r.status = "error" → r.classification = none) →
      ∀ m : List (String × DomainTally),
        (l.filter (fun r => !(r.status == "error"))).foldl (stepSnd parseHost) m =
          l.foldl (stepSnd parseHost) m := by
  intro l
  induction l with
  | nil => intro _ m; rfl
  | cons r rest ih =>
    intro h m
    rw [List.foldl_cons]
    by_cases he : r.status = "error"
    · have hq : (!(r.status == "error")) = false := by
        rw [he]
        decide
      have hc : r.classification = none :=
        h r (List.mem_cons_self r rest) he
      have hstep : stepSnd parseHost m r = m := by
        unfold stepSnd
        rw [hc]
        by_cases hm : r.mentionsBrand
        · rw [if_pos hm]
        · rw [if_neg hm]
      rw [List.filter_cons, if_neg (by simp [hq]), hstep]
      exact ih (fun x hx hex => h x (List.mem_cons_of_mem r hx) hex) m
    · have hq : (!(r.status == "error")) = true := by
        simpa using he
      rw [List.filter_cons, if_pos hq, List.foldl_cons]
      exact ih (fun x hx hex => h x (List.mem_cons_of_mem r hx) hex) (stepSnd parseHost m r)

/-- C8: page records with status "error", which carry no sentiment payload
(no classification and a falsy sentiment field), are inert in aggregation:
they are counted in `totalPages` but contribute nothing to the successful
page count, the corpus positive/neutral/negative tallies, or the
per-domain classification tallies — all of which coincide with those of
the list with the error records removed. -/
theorem claim_C8_error_records_inert (parseHost : String → Option String)
    (l : List PageResult)
    (h : ∀ r ∈ l, r.status = "error" → r.classification = none ∧ r.sentiment = false) :
    (generateDetailedInsights parseHost l).totalPages = l.length ∧
    (generateDetailedInsights parseHost l).successfulPages =
      (generateDetailedInsights parseHost
        (l.filter (fun r => !(r.status == "error")))).successfulPages ∧
    (generateDetailedInsights parseHost l).positive =
      (generateDetailedInsights parseHost
        (l.filter (fun r => !(r.status == "error")))).positive ∧
    (generateDetailedInsights parseHost l).neutral =
      (generateDetailedInsights parseHost
        (l.filter (fun r => !(r.status == "error")))).neutral ∧
    (generateDetailedInsights parseHost l).negative =
      (generateDetailedInsights parseHost
        (l.filter (fun r => !(r.status == "error")))).negative ∧
    (buildMaps parseHost l).2 =
      (buildMaps parseHost (l.filter (fun r => !(r.status == "error")))).2 := by
  have hsucc : (l.filter (fun r => !(r.status == "error"))).filter
      (fun r => r.status == "success" && r.sentiment) =
      l.filter (fun r => r.status == "success" && r.sentiment) :=
    filter_success_filter_error l
  refine ⟨rfl, ?_, ?_, ?_, ?_, ?_⟩
  · show (l.filter (fun r => r.status == "success" && r.sentiment)).length =
      ((l.filter (fun r => !(r.status == "error"))).filter
        (fun r => r.status == "success" && r.sentiment)).length
    rw [hsucc]
  · show ((l.filter (fun r => r.status == "success" && r.sentiment)).filter
        (fun r => r.classification == some .positive)).length =
      (((l.filter (fun r => !(r.status == "error"))).filter
        (fun r => r.status == "success" && r.sentiment)).filter
        (fun r => r.classification == some .positive)).length
    rw [hsucc]
  · show ((l.filter (fun r => r.status == "success" && r.sentiment)).filter
        (fun r => r.classification == some .neutral)).length =
      (((l.filter (fun r => !(r.status == "error"))).filter
        (fun r => r.status == "success" && r.sentiment)).filter
        (fun r => r.classification == some .neutral)).length
    rw [hsucc]
  · show ((l.filter (fun r => r.status == "success" && r.sentiment)).filter
        (fun r => r.classification == some .negative)).length =
      (((l.filter (fun r => !(r.status == "error"))).filter
        (fun r => r.status == "success" && r.sentiment)).filter
        (fun r => r.classification == some .negative)).length
    rw [hsucc]
  · unfold buildMaps
    rw [foldl_insightsStep_snd, foldl_insightsStep_snd,
      foldl_stepSnd_filter_error parseHost l (fun r hr he => (h r hr he).1)]

/-- A concrete error record (no classification, falsy sentiment) used by
the C8 witness. -/
def pageErr : PageResult :=
  ⟨"https://c.example/z", "error", false, 0, none, false⟩

/-- A concrete successful page used by the C8 witness. -/
def pageOk : PageResult :=
  ⟨"https://d.example/w", "success", true, 4, some .neutral, true⟩

/-- Witness for C8 on a concrete two-page list with one error record. -/
theorem claim_C8_witness :
    (generateDetailedInsights (fun _ => none) [pageOk, pageErr]).totalPages = 2 ∧
    ((generateDetailedInsights (fun _ => none) [pageOk, pageErr]).successfulPages =
      (generateDetailedInsights (fun _ => none)
        ([pageOk, pageErr].filter (fun r => !(r.status == "error")))).successfulPages ∧
    (generateDetailedInsights (fun _ => none) [pageOk, pageErr]).positive =
      (generateDetailedInsights (fun _ => none)
        ([pageOk, pageErr].filter (fun r => !(r.status == "error")))).positive ∧
    (generateDetailedInsights (fun _ => none) [pageOk, pageErr]).neutral =
      (generateDetailedInsights (fun _ => none)
        ([pageOk, pageErr].filter (fun r => !(r.status == "error")))).neutral ∧
    (generateDetailedInsights (fun _ => none) [pageOk, pageErr]).negative =
      (generateDetailedInsights (fun _ => none)
        ([pageOk, pageErr].filter (fun r => !(r.status == "error")))).negative ∧
    (buildMaps (fun _ => none) [pageOk, pageErr]).2 =
      (buildMaps (fun _ => none)
        ([pageOk, pageErr].filter (fun r => !(r.status == "error")))).2) :=
  ⟨by decide,
   (claim_C8_error_records_inert (fun _ => none) [pageOk, pageErr] (by decide)).2⟩
